import Mathlib

set_option maxHeartbeats 1600000

/-!
Shallow embedding of the GenAI incident-management pipeline
(app/main.py and app/tools.py): Python runtime values, the tolerant
JSON recovery helper, the exponential-backoff retry wrapper, the
resolution merge and final-decision logic of the process_alert
endpoint, and the RAG retrieval tool.
-/

/-- Python runtime values as they flow through the JSON layer of
app/main.py: the results of json.loads, the merged resolution dict,
and the raw outputs of the reasoning stages. Floats are modelled as
rationals; dict keys in every path reachable here are strings. -/
inductive PyVal where
  | none : PyVal
  | bool : Bool → PyVal
  | int : Int → PyVal
  | float : ℚ → PyVal
  | str : String → PyVal
  | list : List PyVal → PyVal
  | dict : List (String × PyVal) → PyVal

/-- Python truthiness (bool(x)) for the values above, as used by
the checks if not val, if parsed_analyzer, if parsed_executor. -/
def PyVal.truthy : PyVal → Bool
  | PyVal.none => false
  | PyVal.bool b => b
  | PyVal.int n => decide (n ≠ 0)
  | PyVal.float q => decide (q ≠ 0)
  | PyVal.str s => !s.isEmpty
  | PyVal.list xs => !xs.isEmpty
  | PyVal.dict kvs => !kvs.isEmpty

/-- Lookup in an insertion-ordered dict, first matching key
(CPython dicts never hold duplicate keys, so first = only). -/
def dget? (r : List (String × PyVal)) (k : String) : Option PyVal :=
  match r.find? (fun p => decide (p.1 = k)) with
  | some p => some p.2
  | Option.none => Option.none

/-- Python dict.get(k, d). -/
def dgetD (r : List (String × PyVal)) (k : String) (d : PyVal) : PyVal :=
  (dget? r k).getD d

/-- Python dict assignment r[k] = v: replace in place if the key is
present, otherwise append at the end (insertion order). -/
def dset : List (String × PyVal) → String → PyVal → List (String × PyVal)
  | [], k, v => [(k, v)]
  | p :: t, k, v => if p.1 = k then (k, v) :: t else p :: dset t k v

/-- Python dict.update with a dict argument: assign every key-value
pair of u into r, in order. -/
def dupdate (r u : List (String × PyVal)) : List (String × PyVal) :=
  u.foldl (fun acc p => dset acc p.1 p.2) r

/-- JSON whitespace characters (space, tab, newline, carriage return). -/
def jWs (c : Char) : Bool := c = ' ' || c = '\t' || c = '\n' || c = '\r'

/-- Drop leading JSON whitespace. -/
def skipWs : List Char → List Char
  | [] => []
  | c :: cs => if jWs c then skipWs cs else c :: cs

def isDig (c : Char) : Bool := '0' ≤ c && c ≤ '9'

def digitVal (c : Char) : ℕ := c.toNat - 48

/-- Value of a digit string read in base 10. -/
def digitsVal (ds : List Char) : ℕ := ds.foldl (fun a c => a * 10 + digitVal c) 0

def hexVal (c : Char) : Option ℕ :=
  if isDig c then some (digitVal c)
  else if 'a' ≤ c && c ≤ 'f' then some (c.toNat - 87)
  else if 'A' ≤ c && c ≤ 'F' then some (c.toNat - 55)
  else Option.none

/-- Parse the body of a JSON string literal after the opening quote,
handling the standard escapes (a lone \u escape is mapped directly to
the code point; surrogate-pair recombination is not modelled). Returns
the decoded string and the rest of the input after the closing quote. -/
def parseStrAux : ℕ → List Char → List Char → Option (String × List Char)
  | 0, _, _ => Option.none
  | Nat.succ f, acc, cs =>
    match cs with
    | [] => Option.none
    | '"' :: rest => some (String.mk acc.reverse, rest)
    | '\\' :: rest =>
      match rest with
      | [] => Option.none
      | e :: rest2 =>
        if e = '"' then parseStrAux f ('"' :: acc) rest2
        else if e = '\\' then parseStrAux f ('\\' :: acc) rest2
        else if e = '/' then parseStrAux f ('/' :: acc) rest2
        else if e = 'b' then parseStrAux f (Char.ofNat 8 :: acc) rest2
        else if e = 'f' then parseStrAux f (Char.ofNat 12 :: acc) rest2
        else if e = 'n' then parseStrAux f ('\n' :: acc) rest2
        else if e = 'r' then parseStrAux f ('\r' :: acc) rest2
        else if e = 't' then parseStrAux f ('\t' :: acc) rest2
        else if e = 'u' then
          match rest2 with
          | a :: b :: c :: d :: rest3 =>
            match hexVal a, hexVal b, hexVal c, hexVal d with
            | some ha, some hb, some hc, some hd =>
              parseStrAux f (Char.ofNat (ha * 4096 + hb * 256 + hc * 16 + hd) :: acc) rest3
            | _, _, _, _ => Option.none
          | _ => Option.none
        else Option.none
    | c :: rest => parseStrAux f (c :: acc) rest

/-- JSON integer part: 0, or a nonzero digit followed by digits. -/
def parseIntPart : List Char → Option (List Char × List Char)
  | [] => Option.none
  | c :: cs =>
    if c = '0' then some ([c], cs)
    else if isDig c then some (c :: cs.takeWhile isDig, cs.dropWhile isDig)
    else Option.none

/-- Build the numeric value: int when there is no fraction and no
exponent, float (here: rational) otherwise; mirrors the int/float
distinction of the json module. -/
def mkNum (neg : Bool) (ip fd : List Char) (isFloat : Bool) (eneg : Bool)
    (ed : List Char) : PyVal :=
  if isFloat then
    let base : ℚ := (digitsVal ip : ℚ) + (digitsVal fd : ℚ) / (10 : ℚ) ^ fd.length
    let ex : ℤ := if eneg then -(digitsVal ed : ℤ) else (digitsVal ed : ℤ)
    let q : ℚ := base * (10 : ℚ) ^ ex
    PyVal.float (if neg then -q else q)
  else
    PyVal.int (if neg then -(digitsVal ip : ℤ) else (digitsVal ip : ℤ))

/-- Exponent suffix [eE][+-]?digits of a JSON number. Returns the sign,
the exponent digits and the rest. -/
def parseExpPart : List Char → Option (Bool × List Char × List Char)
  | cs =>
    let signed : Bool × List Char :=
      match cs with
      | '-' :: r => (true, r)
      | '+' :: r => (false, r)
      | _ => (false, cs)
    let ds := signed.2.takeWhile isDig
    if ds = [] then Option.none
    else some (signed.1, ds, signed.2.dropWhile isDig)

/-- Parse a JSON number starting at the given characters (the NaN and
Infinity extensions accepted by the json module are not modelled; no
claim exercises them). -/
def parseNum (cs : List Char) : Option (PyVal × List Char) :=
  let signed : Bool × List Char :=
    match cs with
    | '-' :: r => (true, r)
    | _ => (false, cs)
  match parseIntPart signed.2 with
  | Option.none => Option.none
  | some (ip, cs2) =>
    match cs2 with
    | '.' :: r =>
      let fd := r.takeWhile isDig
      if fd = [] then Option.none
      else
        match r.dropWhile isDig with
        | 'e' :: r2 =>
          match parseExpPart r2 with
          | some (eneg, ed, rest) => some (mkNum signed.1 ip fd true eneg ed, rest)
          | Option.none => Option.none
        | 'E' :: r2 =>
          match parseExpPart r2 with
          | some (eneg, ed, rest) => some (mkNum signed.1 ip fd true eneg ed, rest)
          | Option.none => Option.none
        | cs3 => some (mkNum signed.1 ip fd true false [], cs3)
    | 'e' :: r2 =>
      match parseExpPart r2 with
      | some (eneg, ed, rest) => some (mkNum signed.1 ip [] true eneg ed, rest)
      | Option.none => Option.none
    | 'E' :: r2 =>
      match parseExpPart r2 with
      | some (eneg, ed, rest) => some (mkNum signed.1 ip [] true eneg ed, rest)
      | Option.none => Option.none
    | cs3 => some (mkNum signed.1 ip [] false false [], cs3)

mutual

/-- Recursive-descent parser for one JSON value, fuelled; mirrors
json.loads. Duplicate object keys follow the json module: the later
value wins, the key keeps its first position. -/
def parseVal : ℕ → List Char → Option (PyVal × List Char)
  | 0, _ => Option.none
  | Nat.succ f, cs =>
    match skipWs cs with
    | [] => Option.none
    | c :: rest =>
      if c = '"' then
        match parseStrAux (rest.length + 1) [] rest with
        | some (s, r) => some (PyVal.str s, r)
        | Option.none => Option.none
      else if c = '{' then parseObj f rest
      else if c = '[' then parseArr f rest
      else if c = 't' then
        match rest with
        | 'r' :: 'u' :: 'e' :: r => some (PyVal.bool true, r)
        | _ => Option.none
      else if c = 'f' then
        match rest with
        | 'a' :: 'l' :: 's' :: 'e' :: r => some (PyVal.bool false, r)
        | _ => Option.none
      else if c = 'n' then
        match rest with
        | 'u' :: 'l' :: 'l' :: r => some (PyVal.none, r)
        | _ => Option.none
      else parseNum (c :: rest)

/-- Body of a JSON object, called just after the opening brace. -/
def parseObj : ℕ → List Char → Option (PyVal × List Char)
  | 0, _ => Option.none
  | Nat.succ f, cs =>
    match skipWs cs with
    | '}' :: rest => some (PyVal.dict [], rest)
    | cs2 => parseMembers f cs2 []

/-- One or more key-value members of a JSON object, separated by commas. -/
def parseMembers : ℕ → List Char → List (String × PyVal) → Option (PyVal × List Char)
  | 0, _, _ => Option.none
  | Nat.succ f, cs, acc =>
    match skipWs cs with
    | '"' :: rest =>
      match parseStrAux (rest.length + 1) [] rest with
      | some (k, r1) =>
        match skipWs r1 with
        | ':' :: r2 =>
          match parseVal f r2 with
          | some (v, r3) =>
            match skipWs r3 with
            | ',' :: r4 => parseMembers f r4 (dset acc k v)
            | '}' :: r4 => some (PyVal.dict (dset acc k v), r4)
            | _ => Option.none
          | Option.none => Option.none
        | _ => Option.none
      | Option.none => Option.none
    | _ => Option.none

/-- Body of a JSON array, called just after the opening bracket. -/
def parseArr : ℕ → List Char → Option (PyVal × List Char)
  | 0, _ => Option.none
  | Nat.succ f, cs =>
    match skipWs cs with
    | ']' :: rest => some (PyVal.list [], rest)
    | cs2 => parseItems f cs2 []

/-- One or more items of a JSON array, separated by commas. -/
def parseItems : ℕ → List Char → List PyVal → Option (PyVal × List Char)
  | 0, _, _ => Option.none
  | Nat.succ f, cs, acc =>
    match parseVal f cs with
    | some (v, r1) =>
      match skipWs r1 with
      | ',' :: r2 => parseItems f r2 (acc ++ [v])
      | ']' :: r2 => some (PyVal.list (acc ++ [v]), r2)
      | _ => Option.none
    | Option.none => Option.none

end

/-- json.loads: parse exactly one JSON value with only whitespace
around it; any leftover input is an error. -/
def json_loads (s : String) : Option PyVal :=
  match parseVal (2 * s.data.length + 8) s.data with
  | some (v, rest) => if skipWs rest = [] then some v else Option.none
  | Option.none => Option.none


/-- The span matched by re.search of the pattern open-brace .* close-brace
with re.DOTALL on s: the match must start at a literal opening brace and,
being greedy across newlines, extends to the last closing brace of the
whole string. Equivalently: if f is the index of the first opening brace
and l the index of the last closing brace and f < l, the span is the
substring from f to l inclusive; otherwise there is no match. -/
def brace_span (s : String) : Option String :=
  let cs := s.data
  match cs.findIdx? (fun c => c = '{') with
  | Option.none => Option.none
  | some f =>
    match cs.reverse.findIdx? (fun c => c = '}') with
    | Option.none => Option.none
    | some rl =>
      let l := cs.length - 1 - rl
      if f < l then some (String.mk ((cs.drop f).take (l - f + 1)))
      else Option.none

/-- The helper _parse_possible_json of app/main.py: falsy input gives an
empty dict; a dict is returned unchanged; a string is parsed strictly
first, then the brace-delimited span is tried; every failure and every
other input type gives an empty dict. Total by construction, matching
the source, whose except clauses swallow every parse error. -/
def parse_possible_json (val : PyVal) : PyVal :=
  if !val.truthy then PyVal.dict []
  else
    match val with
    | PyVal.dict kvs => PyVal.dict kvs
    | PyVal.str s =>
      match json_loads s with
      | some v => v
      | Option.none =>
        match brace_span s with
        | some sub =>
          match json_loads sub with
          | some v => v
          | Option.none => PyVal.dict []
        | Option.none => PyVal.dict []
    | _ => PyVal.dict []


/-- Python whitespace as stripped by float(): space, tab, newline,
carriage return, vertical tab, form feed. -/
def pyWs (c : Char) : Bool :=
  jWs c || c = Char.ofNat 11 || c = Char.ofNat 12

/-- Drop leading Python float() whitespace. -/
def skipPyWs : List Char → List Char
  | [] => []
  | c :: cs => if pyWs c then skipPyWs cs else c :: cs

/-- Build the rational value of a decimal float literal
sign digits . digits e sign digits. -/
def mkQ (neg : Bool) (ip fd : List Char) (eneg : Bool) (ed : List Char) : ℚ :=
  let base : ℚ := (digitsVal ip : ℚ) + (digitsVal fd : ℚ) / (10 : ℚ) ^ fd.length
  let ex : ℤ := if eneg then -(digitsVal ed : ℤ) else (digitsVal ed : ℤ)
  let q : ℚ := base * (10 : ℚ) ^ ex
  if neg then -q else q

/-- Exponent tail of a float() literal: optional sign then digits,
which must exhaust the string. -/
def parseFloatExp (neg : Bool) (ip fd : List Char) (cs : List Char) : Option ℚ :=
  let signed : Bool × List Char :=
    match cs with
    | '-' :: r => (true, r)
    | '+' :: r => (false, r)
    | _ => (false, cs)
  let ds := signed.2.takeWhile isDig
  if ds = [] then Option.none
  else if signed.2.dropWhile isDig = [] then some (mkQ neg ip fd signed.1 ds)
  else Option.none

/-- The accepted forms of the Python float(str) conversion: optional
surrounding whitespace, optional sign, then digits with an optional
fractional part, or a bare fractional part, with an optional exponent.
The inf and nan words and digit-group underscores are not modelled; no
claim exercises them. Returns Option.none where float() raises ValueError. -/
def parseFloatStr (s : String) : Option ℚ :=
  let cs0 := (skipPyWs s.data).reverse
  let cs := (skipPyWs cs0).reverse
  let signed : Bool × List Char :=
    match cs with
    | '-' :: r => (true, r)
    | '+' :: r => (false, r)
    | _ => (false, cs)
  let ip := signed.2.takeWhile isDig
  match signed.2.dropWhile isDig with
  | '.' :: r =>
    let fd := r.takeWhile isDig
    if ip = [] && fd = [] then Option.none
    else
      match r.dropWhile isDig with
      | [] => some (mkQ signed.1 ip fd false [])
      | 'e' :: r2 => parseFloatExp signed.1 ip fd r2
      | 'E' :: r2 => parseFloatExp signed.1 ip fd r2
      | _ => Option.none
  | [] => if ip = [] then Option.none else some (mkQ signed.1 ip [] false [])
  | 'e' :: r2 => if ip = [] then Option.none else parseFloatExp signed.1 ip [] r2
  | 'E' :: r2 => if ip = [] then Option.none else parseFloatExp signed.1 ip [] r2
  | _ => Option.none


/-- The float(x) conversion applied by the final decision of
process_alert to the merged confidence value: floats pass through,
ints and bools convert exactly, strings go through the float literal
grammar, and every other type raises TypeError. Errors are Except
errors here. -/
inductive PyError where
  | typeErr : PyError
  | valueErr : PyError
deriving DecidableEq, Repr

def pyFloat : PyVal → Except PyError ℚ
  | PyVal.float q => Except.ok q
  | PyVal.int n => Except.ok (n : ℚ)
  | PyVal.bool b => Except.ok (if b then 1 else 0)
  | PyVal.str s =>
    match parseFloatStr s with
    | some q => Except.ok q
    | Option.none => Except.error PyError.valueErr
  | _ => Except.error PyError.typeErr

/-- The litellm exception kinds distinguished by app/main.py. The
classes RateLimitError, APIError and AuthenticationError are sibling
classes in litellm (AuthenticationError is not a subclass of the
litellm APIError), so the except clauses of the retry wrapper match
exactly one constructor each; every other exception is other. -/
inductive LLMError where
  | rateLimitError : LLMError
  | apiError : LLMError
  | authenticationError : LLMError
  | other : LLMError
deriving DecidableEq, Repr

/-- The allowed_exceptions tuple (RateLimitError, APIError) of
exponential_backoff_retry: the transient kinds that are retried. -/
def isAllowed : LLMError → Bool
  | LLMError.rateLimitError => true
  | LLMError.apiError => true
  | _ => false

/-- Observable trace of one exponential_backoff_retry run: the value
returned or exception raised, the waits computed (and slept) after
each transient failure, and the number of times fn was invoked. -/
structure RetryTrace (α : Type) where
  result : Except LLMError α
  waits : List ℚ
  calls : ℕ

/-- Loop body of exponential_backoff_retry: attempt is the 1-based
attempt counter of the source for loop, rem the attempts left, last
the last transient exception seen. A success returns immediately; a
transient failure records wait = min(max_interval, base_interval *
2 ^ (attempt - 1)) and continues; an authentication failure or any
other exception re-raises at once. When the loop ends, raise last_exc
re-raises the last transient exception (if no attempt ever ran,
last_exc is None and the Python raise fails; that unreachable corner
is modelled as LLMError.other). -/
def retryGo (fn : ℕ → Except LLMError α) (base maxI : ℚ) :
    ℕ → Option LLMError → ℕ → RetryTrace α
  | _, last, 0 =>
    { result := Except.error (match last with
        | some e => e
        | Option.none => LLMError.other),
      waits := [], calls := 0 }
  | attempt, _, Nat.succ rem =>
    match fn attempt with
    | Except.ok v => { result := Except.ok v, waits := [], calls := 1 }
    | Except.error e =>
      if isAllowed e then
        let w := min maxI (base * 2 ^ (attempt - 1))
        let t := retryGo fn base maxI (attempt + 1) (some e) rem
        { result := t.result, waits := w :: t.waits, calls := t.calls + 1 }
      else { result := Except.error e, waits := [], calls := 1 }

/-- exponential_backoff_retry of app/main.py, with fn modelled as a
function of the 1-based attempt number (one call of the Python thunk
per attempt). Defaults at every call site of the source: retries = 3,
base_interval = 1.0, max_interval = 10.0. -/
def exponential_backoff_retry (fn : ℕ → Except LLMError α) (retries : ℕ)
    (base maxI : ℚ) : RetryTrace α :=
  retryGo fn base maxI 1 Option.none retries

/-- needle is a prefix of hay (character lists). -/
def listStarts : List Char → List Char → Bool
  | [], _ => true
  | _ :: _, [] => false
  | a :: as, b :: bs => a = b && listStarts as bs

/-- needle occurs contiguously inside hay: the Python operator
needle in hay on strings. -/
def listHasSub (n : List Char) : List Char → Bool
  | [] => listStarts n []
  | b :: bs => listStarts n (b :: bs) || listHasSub n bs

def strHasSub (hay needle : String) : Bool := listHasSub needle.data hay.data


/-- One element of result.tasks_output as consumed by process_alert:
the agent role string and the raw output value handed to
_parse_possible_json (raw or output attribute, or str(t)). -/
structure TaskOutput where
  agent : String
  raw : PyVal

/-- The extraction loop of process_alert: walk tasks_output in order,
recover each output, and keep the recovered value of the last task
whose agent contains Resolution Generator as parsed_analyzer and of
the last whose agent contains Fix Executor as parsed_executor, both
starting from empty dicts. The surrounding try/except never fires:
every operation in the loop body is total. -/
def extract_outputs (tasks : List TaskOutput) : PyVal × PyVal :=
  tasks.foldl
    (fun acc t =>
      let parsed := parse_possible_json t.raw
      let a := if strHasSub t.agent ("Resolution Generator") then parsed else acc.1
      let e := if strHasSub t.agent ("Fix Executor") then parsed else acc.2
      (a, e))
    (PyVal.dict [], PyVal.dict [])

/-- The baseline resolution dict of process_alert before any stage
output is merged. -/
def resolution_defaults : List (String × PyVal) :=
  [(("issue"), PyVal.str ("Unknown")),
   (("root_cause"), PyVal.str ("Unknown")),
   (("impact"), PyVal.str ("Unknown")),
   (("resolution"), PyVal.str ("Manual investigation required")),
   (("confidence"), PyVal.float (7 / 10)),
   (("executed"), PyVal.bool false)]

/-- resolution.update(v): a dict argument assigns its pairs in order;
any other (truthy) argument raises TypeError. (CPython also accepts
an iterable of key-value pairs; no reachable stage output exercises
that branch in the claims, and it is not modelled.) -/
def pyUpdate (r : List (String × PyVal)) : PyVal → Except PyError (List (String × PyVal))
  | PyVal.dict kvs => Except.ok (dupdate r kvs)
  | _ => Except.error PyError.typeErr

/-- Turn a Python list value into a list of strings if every element
is a string; ",".join raises TypeError otherwise. -/
def strList : List PyVal → Option (List String)
  | [] => some []
  | PyVal.str s :: t =>
    match strList t with
    | some ss => some (s :: ss)
    | Option.none => Option.none
  | _ => Option.none

/-- The command_id flattening step of process_alert: if the merged
resolution holds a list under command_id, join it with commas
(TypeError when an element is not a string, as ",".join raises). -/
def flatten_command_id (r : List (String × PyVal)) :
    Except PyError (List (String × PyVal)) :=
  match dgetD r ("command_id") PyVal.none with
  | PyVal.list xs =>
    match strList xs with
    | some ss =>
      Except.ok (dset r ("command_id") (PyVal.str (String.intercalate (",") ss)))
    | Option.none => Except.error PyError.typeErr
  | _ => Except.ok r

/-- The merge step of process_alert: start from the defaults, overlay
the analyzer output if truthy, overlay the executor output if truthy,
then flatten command_id. -/
def merge_resolution (pa pe : PyVal) : Except PyError (List (String × PyVal)) :=
  match (if pa.truthy then pyUpdate resolution_defaults pa
         else Except.ok resolution_defaults) with
  | Except.error e => Except.error e
  | Except.ok r1 =>
    match (if pe.truthy then pyUpdate r1 pe else Except.ok r1) with
    | Except.error e => Except.error e
    | Except.ok r2 => flatten_command_id r2

/-- The final decision of process_alert: convert the merged confidence
with float() (default 0.7), then: executed is True (Python identity
with the boolean True, so exactly the value True) gives status
resolved and confidence raised to max(confidence, 0.95); otherwise
confidence below 0.8 gives pending_human, else resolved. -/
def final_decision (r : List (String × PyVal)) :
    Except PyError (String × List (String × PyVal)) :=
  match pyFloat (dgetD r ("confidence") (PyVal.float (7 / 10))) with
  | Except.error e => Except.error e
  | Except.ok c =>
    match dgetD r ("executed") PyVal.none with
    | PyVal.bool true =>
      Except.ok (("resolved"), dset r ("confidence") (PyVal.float (max c (19 / 20))))
    | _ =>
      if c < 4 / 5 then Except.ok (("pending_human"), r)
      else Except.ok (("resolved"), r)

/-- The incoming alert after FastAPI validation (models of app/main.py:
description non-empty and not blank, severity in the enum). The
incident_id, metrics and severity do not influence the pipeline logic
modelled here. -/
structure Alert where
  incident_id : Option String
  description : String
  severity : String

def validSeverity (s : String) : Bool := s = "low" || s = "medium" || s = "high"

/-- Input validation at the endpoint boundary: non-blank description
and a valid severity. -/
def validAlert (a : Alert) : Bool :=
  a.description.data.any (fun c => !pyWs c) && validSeverity a.severity

/-- The body of the structured response of process_alert. -/
structure RespOut where
  status : String
  resolution : List (String × PyVal)

/-- An exception escaping process_alert to the caller: an uncaught
litellm error (authentication or other) or a TypeError/ValueError
from the merge and decision code. -/
inductive ProcError where
  | llm : LLMError → ProcError
  | py : PyError → ProcError
deriving DecidableEq, Repr

/-- Observable outcome of one process_alert run: the response or the
escaped exception, and how many audit records were written. -/
structure ProcResult where
  outcome : Except ProcError RespOut
  audits : ℕ

/-- The terminal resolution synthesized when retries are exhausted on
a rate-limit or service error (the early return of process_alert). -/
def llm_unavailable_resolution : List (String × PyVal) :=
  [(("issue"), PyVal.str ("LLM unavailable")),
   (("root_cause"), PyVal.str ("Rate limited or service error")),
   (("impact"), PyVal.str ("Unknown")),
   (("resolution"), PyVal.str ("Manual investigation required")),
   (("confidence"), PyVal.float 0),
   (("executed"), PyVal.bool false)]

/-- process_alert of app/main.py over one alert, with the crew kickoff
modelled as a function from the 1-based attempt number to the list of
task outputs or the litellm exception raised. The audit put_item call
is modelled as one successful write (its DynamoDB failure modes are
outside this embedding). The alert itself, already validated at the
endpoint boundary, does not influence the modelled control flow. -/
def process_alert (_a : Alert) (kickoff : ℕ → Except LLMError (List TaskOutput)) :
    ProcResult :=
  match (exponential_backoff_retry kickoff 3 1 10).result with
  | Except.error e =>
    if e = LLMError.rateLimitError ∨ e = LLMError.apiError then
      { outcome := Except.ok
          { status := ("pending_human"), resolution := llm_unavailable_resolution },
        audits := 0 }
    else { outcome := Except.error (ProcError.llm e), audits := 0 }
  | Except.ok tasks =>
    let pp := extract_outputs tasks
    match merge_resolution pp.1 pp.2 with
    | Except.error e => { outcome := Except.error (ProcError.py e), audits := 0 }
    | Except.ok r =>
      match final_decision r with
      | Except.error e => { outcome := Except.error (ProcError.py e), audits := 0 }
      | Except.ok sr =>
        { outcome := Except.ok { status := sr.1, resolution := sr.2 }, audits := 1 }

/-- The external collaborators of RAGTool._run in app/tools.py, each
modelled as a fallible step (Except.error for any exception raised in
that step): OpenSearch client construction, the Titan embedding call
(with its body parse), the knn search for a given k returning the hit
contents, and the CrossEncoder construction plus predict over the
(query, doc) pairs returning one score per pair. -/
structure RagEnv where
  clientOk : Except Unit Unit
  embed : Except Unit (List ℚ)
  search : ℕ → Except Unit (List String)
  score : List String → Except Unit (List ℚ)

/-- The comparison used by sorted(..., key=lambda x: x[1],
reverse=True): stable descending order on the score component. -/
def descBySnd (a b : String × ℚ) : Bool := decide (b.2 ≤ a.2)

/-- RAGTool._run: embed the query, knn-search with k = 10, rerank with
the cross-encoder, keep the top 3 documents; an empty embedding or an
empty hit list short-circuits to an empty result, and any exception
anywhere is caught and converted to an empty result. -/
def rag_run (env : RagEnv) : List String :=
  match env.clientOk with
  | Except.error _ => []
  | Except.ok _ =>
    match env.embed with
    | Except.error _ => []
    | Except.ok emb =>
      if emb.isEmpty then []
      else
        match env.search 10 with
        | Except.error _ => []
        | Except.ok docs =>
          if docs.isEmpty then []
          else
            match env.score docs with
            | Except.error _ => []
            | Except.ok scores =>
              ((((docs.zip scores).mergeSort descBySnd).take 3).map Prod.fst)





/-! Dictionary lemmas. -/

theorem dget?_cons (k1 : String) (v1 : PyVal) (t : List (String × PyVal)) (k : String) :
    dget? ((k1, v1) :: t) k = if k1 = k then some v1 else dget? t k := by
  by_cases h : k1 = k
  · simp [dget?, List.find?, h]
  · simp [dget?, List.find?, h]

theorem dset_cons (k1 : String) (v1 : PyVal) (t : List (String × PyVal))
    (k : String) (v : PyVal) :
    dset ((k1, v1) :: t) k v
      = if k1 = k then (k, v) :: t else (k1, v1) :: dset t k v := by
  by_cases h : k1 = k
  · simp [dset, h]
  · simp [dset, h]

theorem dget?_dset_same (r : List (String × PyVal)) (k : String) (v : PyVal) :
    dget? (dset r k v) k = some v := by
  induction r with
  | nil => simp [dset, dget?_cons]
  | cons p t ih =>
    cases p with
    | mk pk pv =>
      by_cases h : pk = k
      · simp [dset_cons, h, dget?_cons]
      · simp [dset_cons, h, dget?_cons, ih]

theorem dget?_dset_ne (r : List (String × PyVal)) (k k2 : String) (v : PyVal)
    (hne : k2 ≠ k) : dget? (dset r k v) k2 = dget? r k2 := by
  have hne2 : ¬ (k = k2) := fun e => hne e.symm
  induction r with
  | nil => simp [dset, dget?_cons, hne2]
  | cons p t ih =>
    cases p with
    | mk pk pv =>
      by_cases h : pk = k
      · subst h
        simp [dset_cons, dget?_cons, hne2]
      · simp [dset_cons, h, dget?_cons, ih]

theorem dupdate_cons (r : List (String × PyVal)) (p : String × PyVal)
    (t : List (String × PyVal)) :
    dupdate r (p :: t) = dupdate (dset r p.1 p.2) t := rfl

theorem dget?_dupdate_not_mem (u r : List (String × PyVal)) (k : String)
    (h : k ∉ u.map Prod.fst) : dget? (dupdate r u) k = dget? r k := by
  induction u generalizing r with
  | nil => rfl
  | cons p t ih =>
    simp only [List.map_cons, List.mem_cons] at h
    push_neg at h
    rw [dupdate_cons, ih (dset r p.1 p.2) (by simpa using h.2),
      dget?_dset_ne r p.1 k p.2 h.1]

theorem dget?_dupdate_mem (u r : List (String × PyVal)) (k : String) (v : PyVal)
    (hnd : (u.map Prod.fst).Nodup) (hmem : (k, v) ∈ u) :
    dget? (dupdate r u) k = some v := by
  induction u generalizing r with
  | nil => cases hmem
  | cons p t ih =>
    simp only [List.map_cons, List.nodup_cons] at hnd
    rcases List.mem_cons.mp hmem with h | h
    · rw [dupdate_cons, ← h]
      have hk : k ∉ t.map Prod.fst := by
        have := hnd.1
        rw [← h] at this
        simpa using this
      rw [dget?_dupdate_not_mem t _ k hk]
      exact dget?_dset_same r k v
    · rw [dupdate_cons]
      exact ih (dset r p.1 p.2) hnd.2 h

theorem dget?_dupdate_provenance (u r : List (String × PyVal)) (k : String)
    (v : PyVal) (h : dget? (dupdate r u) k = some v) :
    dget? r k = some v ∨ (k, v) ∈ u := by
  induction u generalizing r with
  | nil => exact Or.inl h
  | cons p t ih =>
    rw [dupdate_cons] at h
    rcases ih (dset r p.1 p.2) h with h2 | h2
    · by_cases hk : p.1 = k
      · subst hk
        rw [dget?_dset_same] at h2
        refine Or.inr (List.mem_cons.mpr (Or.inl ?_))
        have : p.2 = v := Option.some.injEq _ _ ▸ h2
        calc (p.1, v) = (p.1, p.2) := by rw [this]
          _ = p := rfl
      · rw [dget?_dset_ne r p.1 k p.2 (fun e => hk e.symm)] at h2
        exact Or.inl h2
    · exact Or.inr (List.mem_cons_of_mem p h2)

theorem dget?_dset_isSome (r : List (String × PyVal)) (k k2 : String) (v : PyVal)
    (h : (dget? r k2).isSome = true) : (dget? (dset r k v) k2).isSome = true := by
  by_cases hk : k2 = k
  · subst hk
    simp [dget?_dset_same]
  · rw [dget?_dset_ne r k k2 v hk]
    exact h

theorem dget?_dupdate_isSome (u r : List (String × PyVal)) (k : String)
    (h : (dget? r k).isSome = true) : (dget? (dupdate r u) k).isSome = true := by
  induction u generalizing r with
  | nil => exact h
  | cons p t ih =>
    rw [dupdate_cons]
    exact ih (dset r p.1 p.2) (dget?_dset_isSome r p.1 k p.2 h)

/-! Retry-wrapper lemmas. -/

theorem retryGo_zero {α : Type} (fn : ℕ → Except LLMError α) (base maxI : ℚ)
    (attempt : ℕ) (last : Option LLMError) :
    retryGo fn base maxI attempt last 0
      = { result := Except.error (match last with
            | some e => e
            | Option.none => LLMError.other),
          waits := [], calls := 0 } := rfl

theorem retryGo_succ_ok {α : Type} {fn : ℕ → Except LLMError α} {base maxI : ℚ}
    {attempt : ℕ} {last : Option LLMError} {rem : ℕ} {v : α}
    (hfn : fn attempt = Except.ok v) :
    retryGo fn base maxI attempt last (rem + 1)
      = { result := Except.ok v, waits := [], calls := 1 } := by
  simp [retryGo, hfn]

theorem retryGo_succ_allowed {α : Type} {fn : ℕ → Except LLMError α} {base maxI : ℚ}
    {attempt : ℕ} {last : Option LLMError} {rem : ℕ} {e : LLMError}
    (hfn : fn attempt = Except.error e) (he : isAllowed e = true) :
    retryGo fn base maxI attempt last (rem + 1)
      = { result := (retryGo fn base maxI (attempt + 1) (some e) rem).result,
          waits := min maxI (base * 2 ^ (attempt - 1))
            :: (retryGo fn base maxI (attempt + 1) (some e) rem).waits,
          calls := (retryGo fn base maxI (attempt + 1) (some e) rem).calls + 1 } := by
  conv_lhs => rw [retryGo]
  rw [hfn]
  simp [he]

theorem retryGo_succ_blocked {α : Type} {fn : ℕ → Except LLMError α} {base maxI : ℚ}
    {attempt : ℕ} {last : Option LLMError} {rem : ℕ} {e : LLMError}
    (hfn : fn attempt = Except.error e) (he : isAllowed e = false) :
    retryGo fn base maxI attempt last (rem + 1)
      = { result := Except.error e, waits := [], calls := 1 } := by
  conv_lhs => rw [retryGo]
  rw [hfn]
  simp [he]

theorem retryGo_waits {α : Type} (fn : ℕ → Except LLMError α) (base maxI : ℚ) :
    ∀ (rem attempt : ℕ) (last : Option LLMError), 1 ≤ attempt →
      ∀ i : ℕ, i < (retryGo fn base maxI attempt last rem).waits.length →
      (retryGo fn base maxI attempt last rem).waits.getD i 0
        = min maxI (base * 2 ^ (attempt - 1 + i)) := by
  intro rem
  induction rem with
  | zero => intro attempt last _ i hi; simp [retryGo_zero] at hi
  | succ rem ih =>
    intro attempt last hatt i hi
    cases hfn : fn attempt with
    | ok v => rw [retryGo_succ_ok hfn] at hi; simp at hi
    | error e =>
      by_cases hall : isAllowed e
      · rw [retryGo_succ_allowed hfn hall] at hi ⊢
        match i with
        | 0 => simp
        | Nat.succ j =>
          simp only [List.length_cons, Nat.succ_lt_succ_iff] at hi
          have h2 := ih (attempt + 1) (some e) (by omega) j hi
          have hexp : attempt + 1 - 1 + j = attempt - 1 + (j + 1) := by omega
          simp only [List.getD_cons_succ]
          rw [h2, hexp]
      · rw [retryGo_succ_blocked hfn (by simpa using hall)] at hi
        simp at hi

theorem retryGo_calls_le {α : Type} (fn : ℕ → Except LLMError α) (base maxI : ℚ) :
    ∀ (rem attempt : ℕ) (last : Option LLMError),
      (retryGo fn base maxI attempt last rem).calls ≤ rem := by
  intro rem
  induction rem with
  | zero => intro attempt last; simp [retryGo_zero]
  | succ rem ih =>
    intro attempt last
    cases hfn : fn attempt with
    | ok v =>
      rw [retryGo_succ_ok hfn]
      show 1 ≤ rem + 1
      omega
    | error e =>
      by_cases hall : isAllowed e
      · rw [retryGo_succ_allowed hfn hall]
        have := ih (attempt + 1) (some e)
        show (retryGo fn base maxI (attempt + 1) (some e) rem).calls + 1 ≤ rem + 1
        omega
      · rw [retryGo_succ_blocked hfn (by simpa using hall)]
        show 1 ≤ rem + 1
        omega

theorem retryGo_all_fail {α : Type} (fn : ℕ → Except LLMError α) (base maxI : ℚ) :
    ∀ (rem attempt : ℕ) (last : Option LLMError), 1 ≤ rem →
      (∀ n, attempt ≤ n → n < attempt + rem →
        ∃ e, fn n = Except.error e ∧ isAllowed e = true) →
      ∃ e, (retryGo fn base maxI attempt last rem).result = Except.error e
        ∧ fn (attempt + rem - 1) = Except.error e
        ∧ (retryGo fn base maxI attempt last rem).calls = rem := by
  intro rem
  induction rem with
  | zero => intro attempt last h; omega
  | succ rem ih =>
    intro attempt last _ hall
    obtain ⟨e, hfn, he⟩ := hall attempt (le_refl attempt) (by omega)
    cases rem with
    | zero =>
      refine ⟨e, ?_, ?_, ?_⟩
      · rw [retryGo_succ_allowed hfn he]
        simp [retryGo_zero]
      · have hidx : attempt + 1 - 1 = attempt := by omega
        rw [hidx]
        exact hfn
      · rw [retryGo_succ_allowed hfn he]
        simp [retryGo_zero]
    | succ rem2 =>
      obtain ⟨e2, hres, hlast, hcalls⟩ :=
        ih (attempt + 1) (some e) (by omega)
          (fun n h1 h2 => hall n (by omega) (by omega))
      refine ⟨e2, ?_, ?_, ?_⟩
      · rw [retryGo_succ_allowed hfn he]
        exact hres
      · have hidx : attempt + 1 + (rem2 + 1) - 1 = attempt + (rem2 + 1 + 1) - 1 := by
          omega
        rw [← hidx]
        exact hlast
      · rw [retryGo_succ_allowed hfn he]
        simp only
        omega

theorem retryGo_auth {α : Type} (fn : ℕ → Except LLMError α) (base maxI : ℚ) :
    ∀ (m rem attempt : ℕ) (last : Option LLMError), m + 1 ≤ rem →
      (∀ n, attempt ≤ n → n < attempt + m →
        ∃ e, fn n = Except.error e ∧ isAllowed e = true) →
      fn (attempt + m) = Except.error LLMError.authenticationError →
      (retryGo fn base maxI attempt last rem).result
          = Except.error LLMError.authenticationError
        ∧ (retryGo fn base maxI attempt last rem).calls = m + 1 := by
  intro m
  induction m with
  | zero =>
    intro rem attempt last hrem _ hauth
    match rem, hrem with
    | Nat.succ rem2, _ =>
      rw [Nat.add_zero] at hauth
      rw [retryGo_succ_blocked hauth (by simp [isAllowed])]
      exact ⟨rfl, rfl⟩
  | succ m ih =>
    intro rem attempt last hrem hall hauth
    match rem, hrem with
    | Nat.succ rem2, _ =>
      obtain ⟨e, hfn, he⟩ := hall attempt (le_refl attempt) (by omega)
      have hstep := ih rem2 (attempt + 1) (some e) (by omega)
        (fun n h1 h2 => hall n (by omega) (by omega))
        (by rw [show attempt + 1 + m = attempt + (m + 1) by omega]; exact hauth)
      rw [retryGo_succ_allowed hfn he]
      refine ⟨hstep.1, ?_⟩
      simp only
      omega

/-! Extraction and merge lemmas. -/

theorem extract_go_cases (tasks : List TaskOutput) :
    ∀ acc : PyVal × PyVal,
      let r := tasks.foldl
        (fun acc t =>
          let parsed := parse_possible_json t.raw
          let a := if strHasSub t.agent ("Resolution Generator") then parsed else acc.1
          let e := if strHasSub t.agent ("Fix Executor") then parsed else acc.2
          (a, e)) acc
      (r.1 = acc.1 ∨ ∃ t ∈ tasks, r.1 = parse_possible_json t.raw)
        ∧ (r.2 = acc.2 ∨ ∃ t ∈ tasks, r.2 = parse_possible_json t.raw) := by
  induction tasks with
  | nil => intro acc; exact ⟨Or.inl rfl, Or.inl rfl⟩
  | cons t ts ih =>
    intro acc
    simp only [List.foldl_cons]
    have h := ih
      (if strHasSub t.agent ("Resolution Generator") then parse_possible_json t.raw
         else acc.1,
       if strHasSub t.agent ("Fix Executor") then parse_possible_json t.raw
         else acc.2)
    constructor
    · rcases h.1 with h1 | h1
      · rw [h1]
        by_cases hc : strHasSub t.agent ("Resolution Generator")
        · exact Or.inr ⟨t, List.mem_cons_self t ts, by simp [hc]⟩
        · exact Or.inl (by simp [hc])
      · obtain ⟨t2, ht2, he⟩ := h1
        exact Or.inr ⟨t2, List.mem_cons_of_mem t ht2, he⟩
    · rcases h.2 with h1 | h1
      · rw [h1]
        by_cases hc : strHasSub t.agent ("Fix Executor")
        · exact Or.inr ⟨t, List.mem_cons_self t ts, by simp [hc]⟩
        · exact Or.inl (by simp [hc])
      · obtain ⟨t2, ht2, he⟩ := h1
        exact Or.inr ⟨t2, List.mem_cons_of_mem t ht2, he⟩

theorem extract_outputs_cases (tasks : List TaskOutput) :
    ((extract_outputs tasks).1 = PyVal.dict []
      ∨ ∃ t ∈ tasks, (extract_outputs tasks).1 = parse_possible_json t.raw)
    ∧ ((extract_outputs tasks).2 = PyVal.dict []
      ∨ ∃ t ∈ tasks, (extract_outputs tasks).2 = parse_possible_json t.raw) :=
  extract_go_cases tasks (PyVal.dict [], PyVal.dict [])

theorem dupdate_nil (r : List (String × PyVal)) : dupdate r [] = r := rfl

theorem merge_resolution_dict (pa pe : List (String × PyVal)) :
    merge_resolution (PyVal.dict pa) (PyVal.dict pe)
      = flatten_command_id (dupdate (dupdate resolution_defaults pa) pe) := by
  by_cases ha : pa = []
  · by_cases he : pe = []
    · subst ha; subst he
      simp [merge_resolution, PyVal.truthy, dupdate_nil]
    · subst ha
      simp [merge_resolution, PyVal.truthy, he, pyUpdate, dupdate_nil]
  · by_cases he : pe = []
    · subst he
      simp [merge_resolution, PyVal.truthy, ha, pyUpdate, dupdate_nil]
    · simp [merge_resolution, PyVal.truthy, ha, he, pyUpdate]

theorem strList_map (ss : List String) : strList (ss.map PyVal.str) = some ss := by
  induction ss with
  | nil => rfl
  | cons s t ih => simp [strList, ih]

theorem strList_some (xs : List PyVal) (ss : List String)
    (h : strList xs = some ss) : xs = ss.map PyVal.str := by
  induction xs generalizing ss with
  | nil =>
    have h2 : some ([] : List String) = some ss := h
    injection h2 with h3
    rw [← h3]
    rfl
  | cons x t ih =>
    cases x with
    | str s =>
      simp only [strList] at h
      cases hs : strList t with
      | some ss2 =>
        rw [hs] at h
        have h2 : some (s :: ss2) = some ss := h
        injection h2 with h3
        rw [← h3, ih ss2 hs]
        rfl
      | none => rw [hs] at h; cases h
    | none => simp [strList] at h
    | bool b => simp [strList] at h
    | int n => simp [strList] at h
    | float q => simp [strList] at h
    | list ys => simp [strList] at h
    | dict kvs => simp [strList] at h

theorem flatten_preserves (r r2 : List (String × PyVal))
    (h : flatten_command_id r = Except.ok r2) (k : String)
    (hk : k ≠ ("command_id")) : dget? r2 k = dget? r k := by
  unfold flatten_command_id at h
  split at h
  · split at h
    · injection h with h2
      rw [← h2, dget?_dset_ne _ _ _ _ hk]
    · cases h
  · injection h with h2
    rw [← h2]

/-- The dict content a stage output contributes to the merge: the
pairs of a truthy dict, nothing otherwise (a falsy value skips the
update, and dupdate with an empty list is the identity). -/
def asDict (v : PyVal) : List (String × PyVal) :=
  if v.truthy then
    match v with
    | PyVal.dict kvs => kvs
    | _ => []
  else []

theorem merge_resolution_safe (pa pe : PyVal)
    (ha : pa.truthy = true → ∃ kvs, pa = PyVal.dict kvs)
    (he : pe.truthy = true → ∃ kvs, pe = PyVal.dict kvs) :
    merge_resolution pa pe
      = flatten_command_id
          (dupdate (dupdate resolution_defaults (asDict pa)) (asDict pe)) := by
  by_cases hta : pa.truthy = true
  · obtain ⟨ka, hka⟩ := ha hta
    by_cases hte : pe.truthy = true
    · obtain ⟨ke, hke⟩ := he hte
      subst hka; subst hke
      simp [merge_resolution, asDict, hta, hte, pyUpdate]
    · subst hka
      simp [merge_resolution, asDict, hta, hte, pyUpdate,
        Bool.not_eq_true _ ▸ hte, dupdate_nil]
  · by_cases hte : pe.truthy = true
    · obtain ⟨ke, hke⟩ := he hte
      subst hke
      simp [merge_resolution, asDict, hta, hte, pyUpdate, dupdate_nil]
    · simp [merge_resolution, asDict, hta, hte, dupdate_nil]

theorem merged_lookup (d pa pe : List (String × PyVal)) (k : String)
    (hd : (dget? d k).isSome = true) :
    ∃ x, dget? (dupdate (dupdate d pa) pe) k = some x
      ∧ (dget? d k = some x ∨ (k, x) ∈ pa ∨ (k, x) ∈ pe) := by
  have h1 : (dget? (dupdate (dupdate d pa) pe) k).isSome = true :=
    dget?_dupdate_isSome pe _ k (dget?_dupdate_isSome pa d k hd)
  obtain ⟨x, hx⟩ := Option.isSome_iff_exists.mp h1
  refine ⟨x, hx, ?_⟩
  rcases dget?_dupdate_provenance pe _ k x hx with h2 | h2
  · rcases dget?_dupdate_provenance pa d k x h2 with h3 | h3
    · exact Or.inl h3
    · exact Or.inr (Or.inl h3)
  · exact Or.inr (Or.inr h2)

theorem dget?_defaults_confidence :
    dget? resolution_defaults ("confidence") = some (PyVal.float (7 / 10)) := by
  simp [resolution_defaults, dget?, List.find?]

theorem dget?_defaults_executed :
    dget? resolution_defaults ("executed") = some (PyVal.bool false) := by
  simp [resolution_defaults, dget?, List.find?]

theorem dget?_defaults_command_id :
    dget? resolution_defaults ("command_id") = Option.none := by
  simp [resolution_defaults, dget?, List.find?]

theorem flatten_ok (r : List (String × PyVal))
    (hcmd : ∀ xs, dgetD r ("command_id") PyVal.none = PyVal.list xs →
      ∃ ss : List String, xs = List.map PyVal.str ss) :
    ∃ r2, flatten_command_id r = Except.ok r2 := by
  unfold flatten_command_id
  cases hv : dgetD r ("command_id") PyVal.none with
  | list xs =>
    obtain ⟨ss, hss⟩ := hcmd xs hv
    simp only [hss, strList_map]
    exact ⟨_, rfl⟩
  | none => exact ⟨r, rfl⟩
  | bool b => exact ⟨r, rfl⟩
  | int n => exact ⟨r, rfl⟩
  | float q => exact ⟨r, rfl⟩
  | str s => exact ⟨r, rfl⟩
  | dict kvs => exact ⟨r, rfl⟩

theorem final_decision_not_executed (r : List (String × PyVal)) (c : ℚ)
    (hc : pyFloat (dgetD r ("confidence") (PyVal.float (7 / 10))) = Except.ok c)
    (hne : dgetD r ("executed") PyVal.none ≠ PyVal.bool true) :
    final_decision r
      = if c < 4 / 5 then Except.ok (("pending_human"), r)
        else Except.ok (("resolved"), r) := by
  unfold final_decision
  rw [hc]
  cases hv : dgetD r ("executed") PyVal.none with
  | bool b =>
    cases b with
    | true => exact absurd hv hne
    | false => rfl
  | none => rfl
  | int n => rfl
  | float q => rfl
  | str s => rfl
  | list ys => rfl
  | dict kvs => rfl

theorem final_decision_executed (r : List (String × PyVal)) (c : ℚ)
    (hc : pyFloat (dgetD r ("confidence") (PyVal.float (7 / 10))) = Except.ok c)
    (hex : dgetD r ("executed") PyVal.none = PyVal.bool true) :
    final_decision r
      = Except.ok (("resolved"),
          dset r ("confidence") (PyVal.float (max c (19 / 20)))) := by
  unfold final_decision
  rw [hc, hex]

theorem final_decision_ok (r : List (String × PyVal)) (c : ℚ)
    (hc : pyFloat (dgetD r ("confidence") (PyVal.float (7 / 10))) = Except.ok c) :
    ∃ sr, final_decision r = Except.ok sr := by
  by_cases hex : dgetD r ("executed") PyVal.none = PyVal.bool true
  · rw [final_decision_executed r c hc hex]
    exact ⟨_, rfl⟩
  · rw [final_decision_not_executed r c hc hex]
    by_cases hlt : c < 4 / 5
    · rw [if_pos hlt]
      exact ⟨_, rfl⟩
    · rw [if_neg hlt]
      exact ⟨_, rfl⟩

/-! process_alert path lemmas. -/

theorem process_alert_transient_eq (a : Alert)
    (kick : ℕ → Except LLMError (List TaskOutput)) (e : LLMError)
    (hres : (exponential_backoff_retry kick 3 1 10).result = Except.error e)
    (he : e = LLMError.rateLimitError ∨ e = LLMError.apiError) :
    process_alert a kick
      = { outcome := Except.ok
            { status := ("pending_human"), resolution := llm_unavailable_resolution },
          audits := 0 } := by
  unfold process_alert
  rw [hres]
  show (if e = LLMError.rateLimitError ∨ e = LLMError.apiError then _ else _) = _
  rw [if_pos he]

theorem process_alert_pass_eq (a : Alert)
    (kick : ℕ → Except LLMError (List TaskOutput)) (e : LLMError)
    (hres : (exponential_backoff_retry kick 3 1 10).result = Except.error e)
    (he : ¬(e = LLMError.rateLimitError ∨ e = LLMError.apiError)) :
    process_alert a kick
      = { outcome := Except.error (ProcError.llm e), audits := 0 } := by
  unfold process_alert
  rw [hres]
  show (if e = LLMError.rateLimitError ∨ e = LLMError.apiError then _ else _) = _
  rw [if_neg he]

theorem process_alert_ok_eq (a : Alert)
    (kick : ℕ → Except LLMError (List TaskOutput)) (tasks : List TaskOutput)
    (r : List (String × PyVal)) (sr : String × List (String × PyVal))
    (hres : (exponential_backoff_retry kick 3 1 10).result = Except.ok tasks)
    (hm : merge_resolution (extract_outputs tasks).1 (extract_outputs tasks).2
      = Except.ok r)
    (hf : final_decision r = Except.ok sr) :
    process_alert a kick
      = { outcome := Except.ok { status := sr.1, resolution := sr.2 },
          audits := 1 } := by
  unfold process_alert
  rw [hres]
  show (match merge_resolution (extract_outputs tasks).1 (extract_outputs tasks).2 with
    | Except.error e => { outcome := Except.error (ProcError.py e), audits := 0 }
    | Except.ok r =>
      match final_decision r with
      | Except.error e => { outcome := Except.error (ProcError.py e), audits := 0 }
      | Except.ok sr =>
        { outcome := Except.ok { status := sr.1, resolution := sr.2 },
          audits := 1 } : ProcResult) = _
  rw [hm]
  show (match final_decision r with
    | Except.error e => { outcome := Except.error (ProcError.py e), audits := 0 }
    | Except.ok sr =>
      { outcome := Except.ok { status := sr.1, resolution := sr.2 },
        audits := 1 } : ProcResult) = _
  rw [hf]

/-! Claim theorems. -/

/-- A concrete valid alert used by witnesses. -/
def alertW : Alert :=
  { incident_id := Option.none, description := ("DB timeout"), severity := ("high") }

/-- Claim C5: for the retry wrapper with its default parameters
(3 retries, base_interval 1.0, max_interval 10.0), the wait computed
after a transient failure at 1-based attempt n equals
min(max_interval, base_interval * 2 ^ (n - 1)); at most 3 attempts are
made; and when every attempt fails transiently the last transient
error is propagated to the caller. -/
theorem claim_C5 :
    (∀ (fn : ℕ → Except LLMError PyVal) (i : ℕ),
      i < (exponential_backoff_retry fn 3 1 10).waits.length →
      (exponential_backoff_retry fn 3 1 10).waits.getD i 0
        = min 10 (1 * 2 ^ ((i + 1) - 1)))
    ∧ (∀ fn : ℕ → Except LLMError PyVal,
        (exponential_backoff_retry fn 3 1 10).calls ≤ 3)
    ∧ (∀ errs : ℕ → LLMError, (∀ n, isAllowed (errs n) = true) →
        (exponential_backoff_retry
          (fun n => (Except.error (errs n) : Except LLMError PyVal)) 3 1 10).result
          = Except.error (errs 3)) := by
  refine ⟨?_, ?_, ?_⟩
  · intro fn i hi
    have h := retryGo_waits fn 1 10 3 1 Option.none (le_refl 1) i hi
    have h2 : 1 - 1 + i = (i + 1) - 1 := by omega
    rw [← h2]
    exact h
  · intro fn
    exact retryGo_calls_le fn 1 10 3 1 Option.none
  · intro errs hall
    obtain ⟨e, hres, hlast, _⟩ :=
      retryGo_all_fail
        (fun n => (Except.error (errs n) : Except LLMError PyVal)) 1 10 3 1
        Option.none (by omega) (fun n _ _ => ⟨errs n, rfl, hall n⟩)
    have h3 : errs (1 + 3 - 1) = e := by
      injection hlast
    unfold exponential_backoff_retry
    rw [hres, ← h3]

/-- Witness for C5 at a concrete all-transient run. -/
theorem claim_C5_witness :
    (exponential_backoff_retry
        (fun _ => Except.error LLMError.rateLimitError : ℕ → Except LLMError PyVal)
        3 1 10).result
      = Except.error LLMError.rateLimitError
    ∧ (exponential_backoff_retry
        (fun _ => Except.error LLMError.rateLimitError : ℕ → Except LLMError PyVal)
        3 1 10).waits.getD 2 0 = min 10 (1 * 2 ^ ((2 + 1) - 1)) :=
  ⟨claim_C5.2.2 (fun _ => LLMError.rateLimitError) (fun _ => rfl),
   claim_C5.1 (fun _ => Except.error LLMError.rateLimitError) 2 (by decide)⟩

/-- Claim C6: an authentication error at any attempt k (every earlier
attempt having failed transiently) stops the retry wrapper at once:
the error propagates and exactly k calls were made, so no retry
follows the authentication failure. -/
theorem claim_C6 (fn : ℕ → Except LLMError PyVal) (base maxI : ℚ)
    (retries k : ℕ) (hk1 : 1 ≤ k) (hk2 : k ≤ retries)
    (hbefore : ∀ j, 1 ≤ j → j < k →
      ∃ e, fn j = Except.error e ∧ isAllowed e = true)
    (hauth : fn k = Except.error LLMError.authenticationError) :
    (exponential_backoff_retry fn retries base maxI).result
        = Except.error LLMError.authenticationError
      ∧ (exponential_backoff_retry fn retries base maxI).calls = k := by
  have h := retryGo_auth fn base maxI (k - 1) retries 1 Option.none (by omega)
    (fun n h1 h2 => hbefore n h1 (by omega))
    (by rw [show 1 + (k - 1) = k by omega]; exact hauth)
  refine ⟨h.1, ?_⟩
  unfold exponential_backoff_retry
  rw [h.2]
  omega

/-- Witness for C6: authentication failure on the first attempt. -/
theorem claim_C6_witness :
    (exponential_backoff_retry
        (fun _ => Except.error LLMError.authenticationError : ℕ → Except LLMError PyVal)
        3 1 10).result
      = Except.error LLMError.authenticationError
    ∧ (exponential_backoff_retry
        (fun _ => Except.error LLMError.authenticationError : ℕ → Except LLMError PyVal)
        3 1 10).calls = 1 :=
  claim_C6 (fun _ => Except.error LLMError.authenticationError) 1 10 3 1
    (le_refl 1) (by omega) (fun j h1 h2 => absurd h2 (by omega)) rfl

/-- Claim C2: after the merge, the status rule is deterministic: a
merged executed that is exactly the boolean True gives status resolved
and raises the stored confidence to at least 0.95 whatever the
upstream confidence was; otherwise confidence below 0.8 gives
pending_human and confidence at least 0.8 gives resolved. -/
theorem claim_C2 (r : List (String × PyVal)) (c : ℚ)
    (hc : pyFloat (dgetD r ("confidence") (PyVal.float (7 / 10))) = Except.ok c) :
    (dgetD r ("executed") PyVal.none = PyVal.bool true →
      ∃ r2, final_decision r = Except.ok (("resolved"), r2)
        ∧ ∃ q, dget? r2 ("confidence") = some (PyVal.float q) ∧ 19 / 20 ≤ q)
    ∧ (dgetD r ("executed") PyVal.none ≠ PyVal.bool true → c < 4 / 5 →
        final_decision r = Except.ok (("pending_human"), r))
    ∧ (dgetD r ("executed") PyVal.none ≠ PyVal.bool true → 4 / 5 ≤ c →
        final_decision r = Except.ok (("resolved"), r)) := by
  refine ⟨?_, ?_, ?_⟩
  · intro hex
    rw [final_decision_executed r c hc hex]
    exact ⟨_, rfl, max c (19 / 20), dget?_dset_same r _ _, le_max_right c _⟩
  · intro hne hlt
    rw [final_decision_not_executed r c hc hne, if_pos hlt]
  · intro hne hge
    rw [final_decision_not_executed r c hc hne, if_neg (not_lt.mpr hge)]

/-- Witness for C2: executed True with upstream confidence 0.1 still
yields resolved with confidence at least 0.95. -/
theorem claim_C2_witness :
    ∃ r2, final_decision
        [(("executed"), PyVal.bool true), (("confidence"), PyVal.float (1 / 10))]
      = Except.ok (("resolved"), r2)
      ∧ ∃ q, dget? r2 ("confidence") = some (PyVal.float q) ∧ 19 / 20 ≤ q :=
  (claim_C2 [(("executed"), PyVal.bool true), (("confidence"), PyVal.float (1 / 10))]
    (1 / 10) rfl).1 rfl

/-- Claim C10: the executed branch of the final decision fires only on
the exact boolean True. Any other merged executed value, truthy or
not, leaves the decision to the confidence threshold and the merged
resolution dict (its confidence included) unchanged. -/
theorem claim_C10 (r : List (String × PyVal)) (v : PyVal) (c : ℚ)
    (hv : dgetD r ("executed") PyVal.none = v) (hne : v ≠ PyVal.bool true)
    (hc : pyFloat (dgetD r ("confidence") (PyVal.float (7 / 10))) = Except.ok c) :
    final_decision r
      = if c < 4 / 5 then Except.ok (("pending_human"), r)
        else Except.ok (("resolved"), r) :=
  final_decision_not_executed r c hc (by rw [hv]; exact hne)

/-- Witness for C10: executed as the string "true" with confidence 0.9
yields resolved by the threshold rule with confidence left at 0.9,
not raised to 0.95. -/
theorem claim_C10_witness :
    final_decision
        [(("executed"), PyVal.str ("true")), (("confidence"), PyVal.float (9 / 10))]
      = Except.ok (("resolved"),
          [(("executed"), PyVal.str ("true")), (("confidence"), PyVal.float (9 / 10))]) := by
  have h := claim_C10
    [(("executed"), PyVal.str ("true")), (("confidence"), PyVal.float (9 / 10))]
    (PyVal.str ("true")) (9 / 10) rfl (fun hh => PyVal.noConfusion hh) rfl
  rw [h, if_neg (by norm_num)]

/-- Claim C7: the merge starts from the documented defaults, overlays
the Analyze output first and the Execute-decision output second
(so the later stage wins on any key present in both), and a merged
command_id holding a list of strings is flattened to one comma-joined
string. -/
theorem claim_C7 :
    resolution_defaults
      = [(("issue"), PyVal.str ("Unknown")),
         (("root_cause"), PyVal.str ("Unknown")),
         (("impact"), PyVal.str ("Unknown")),
         (("resolution"), PyVal.str ("Manual investigation required")),
         (("confidence"), PyVal.float (7 / 10)),
         (("executed"), PyVal.bool false)]
    ∧ (∀ pa pe : List (String × PyVal),
        merge_resolution (PyVal.dict pa) (PyVal.dict pe)
          = flatten_command_id (dupdate (dupdate resolution_defaults pa) pe))
    ∧ (∀ (pa pe : List (String × PyVal)) (k : String) (v : PyVal),
        (pe.map Prod.fst).Nodup → (k, v) ∈ pe →
        dget? (dupdate (dupdate resolution_defaults pa) pe) k = some v)
    ∧ (∀ (r : List (String × PyVal)) (ss : List String),
        dgetD r ("command_id") PyVal.none = PyVal.list (List.map PyVal.str ss) →
        flatten_command_id r
          = Except.ok (dset r ("command_id")
              (PyVal.str (String.intercalate (",") ss)))) := by
  refine ⟨rfl, merge_resolution_dict, ?_, ?_⟩
  · intro pa pe k v hnd hmem
    exact dget?_dupdate_mem pe _ k v hnd hmem
  · intro r ss hv
    unfold flatten_command_id
    simp only [hv, strList_map]

/-- Witness for C7: the Execute-decision confidence 0.9 overrides the
Analyze confidence 0.5, and a two-element string list command_id is
joined with a comma. -/
theorem claim_C7_witness :
    dget? (dupdate
        (dupdate resolution_defaults [(("confidence"), PyVal.float (1 / 2))])
        [(("confidence"), PyVal.float (9 / 10)), (("executed"), PyVal.bool true)])
      ("confidence") = some (PyVal.float (9 / 10))
    ∧ flatten_command_id
        [(("command_id"), PyVal.list [PyVal.str ("a"), PyVal.str ("b")])]
      = Except.ok [(("command_id"), PyVal.str ("a,b"))] := by
  constructor
  · exact claim_C7.2.2.1 [(("confidence"), PyVal.float (1 / 2))]
      [(("confidence"), PyVal.float (9 / 10)), (("executed"), PyVal.bool true)]
      ("confidence") (PyVal.float (9 / 10)) (by simp) (by simp)
  · have h := claim_C7.2.2.2
      [(("command_id"), PyVal.list [PyVal.str ("a"), PyVal.str ("b")])]
      [("a"), ("b")] rfl
    rw [h]
    rfl

theorem isEmpty_false_of_ne (s : String) (hs : ¬ s = "") : s.isEmpty = false := by
  rw [Bool.eq_false_iff]
  intro hcon
  apply hs
  cases s with
  | mk data =>
    cases data with
    | nil => rfl
    | cons c t =>
      exfalso
      simp [String.isEmpty, String.endPos, String.utf8ByteSize] at hcon
      have h2 : String.utf8Len t + c.utf8Size = 0 :=
        congrArg String.Pos.byteIdx hcon
      have h3 := Char.utf8Size_pos c
      omega

/-- Claim C4: structured-output recovery is total and follows the
fixed fallback order: dict inputs pass through unchanged; a string is
parsed strictly first; on strict failure the greedy brace-delimited
span (first opening brace to last closing brace, across newlines) is
parsed; empty or absent input, double failure, and any other input
type give the empty dict, and no input raises. The documented example
recovers the mapping confidence 0.9 from surrounding prose. -/
theorem claim_C4 :
    (∀ kvs : List (String × PyVal),
      parse_possible_json (PyVal.dict kvs) = PyVal.dict kvs)
    ∧ (∀ (s : String) (v : PyVal), json_loads s = some v →
        parse_possible_json (PyVal.str s) = v)
    ∧ (∀ s : String, json_loads s = Option.none →
        parse_possible_json (PyVal.str s)
          = (match brace_span s with
             | some sub =>
               (match json_loads sub with
                | some v => v
                | Option.none => PyVal.dict [])
             | Option.none => PyVal.dict []))
    ∧ parse_possible_json PyVal.none = PyVal.dict []
    ∧ parse_possible_json (PyVal.str ("")) = PyVal.dict []
    ∧ parse_possible_json
        (PyVal.str ("Sure! Here is the result: \x7b\"confidence\": 0.9\x7d"))
      = PyVal.dict [(("confidence"), PyVal.float (9 / 10))] := by
  refine ⟨?_, ?_, ?_, rfl, rfl, by with_unfolding_all rfl⟩
  · intro kvs
    cases kvs with
    | nil => rfl
    | cons p t => rfl
  · intro s v h
    by_cases hs : s = ""
    · subst hs
      rw [show json_loads ("") = Option.none from rfl] at h
      cases h
    · have ht : (PyVal.str s).truthy = true := by
        simp [PyVal.truthy, isEmpty_false_of_ne s hs]
      unfold parse_possible_json
      rw [ht]
      simp only [Bool.not_true, Bool.false_eq_true, if_false, h]
  · intro s h
    by_cases hs : s = ""
    · subst hs
      rfl
    · have ht : (PyVal.str s).truthy = true := by
        simp [PyVal.truthy, isEmpty_false_of_ne s hs]
      unfold parse_possible_json
      rw [ht]
      simp only [Bool.not_true, Bool.false_eq_true, if_false, h]

/-- Witness for C4: the strict branch on a bare JSON object and the
fallback branch on plain prose. -/
theorem claim_C4_witness :
    parse_possible_json (PyVal.str ("\x7b\"a\": 1\x7d"))
        = PyVal.dict [(("a"), PyVal.int 1)]
    ∧ parse_possible_json (PyVal.str ("no braces at all")) = PyVal.dict [] := by
  constructor
  · exact claim_C4.2.1 ("\x7b\"a\": 1\x7d") (PyVal.dict [(("a"), PyVal.int 1)]) rfl
  · have h := claim_C4.2.2.1 ("no braces at all") rfl
    rw [h]
    rfl

/-- Claim C1 (amended): when the crew kickoff fails with a transient
error (rate limit or service error) on all three attempts, the
exhausted retry is caught: process_alert returns status pending_human
with the terminal resolution issue LLM unavailable, confidence 0.0,
executed false, and performs no audit write on this early-return
path. -/
theorem claim_C1 (a : Alert) (kick : ℕ → Except LLMError (List TaskOutput))
    (h : ∀ n, 1 ≤ n → n ≤ 3 →
      kick n = Except.error LLMError.rateLimitError
        ∨ kick n = Except.error LLMError.apiError) :
    process_alert a kick
      = { outcome := Except.ok
            { status := ("pending_human"), resolution := llm_unavailable_resolution },
          audits := 0 } := by
  obtain ⟨e, hres, hlast, _⟩ := retryGo_all_fail kick 1 10 3 1 Option.none
    (by omega)
    (fun n h1 h2 => by
      rcases h n h1 (by omega) with hh | hh
      · exact ⟨_, hh, rfl⟩
      · exact ⟨_, hh, rfl⟩)
  have hlast3 : kick 3 = Except.error e := hlast
  have he : e = LLMError.rateLimitError ∨ e = LLMError.apiError := by
    rcases h 3 (by omega) (le_refl 3) with hh | hh
    · rw [hh] at hlast3
      injection hlast3 with h2
      exact Or.inl h2.symm
    · rw [hh] at hlast3
      injection hlast3 with h2
      exact Or.inr h2.symm
  exact process_alert_transient_eq a kick e hres he

/-- Witness for C1 at a concrete always-rate-limited kickoff. -/
theorem claim_C1_witness :
    process_alert alertW (fun _ => Except.error LLMError.rateLimitError)
      = { outcome := Except.ok
            { status := ("pending_human"), resolution := llm_unavailable_resolution },
          audits := 0 } :=
  claim_C1 alertW (fun _ => Except.error LLMError.rateLimitError)
    (fun _ _ _ => Or.inl rfl)

/-- Counterexample to C1 as stated: on the all-transient run the early
return performs zero audit writes, not exactly one. -/
theorem claim_C1_counterexample :
    (process_alert alertW (fun _ => Except.error LLMError.rateLimitError)).audits = 0
    ∧ ¬ (process_alert alertW
          (fun _ => Except.error LLMError.rateLimitError)).audits = 1 :=
  ⟨rfl, fun hh => Nat.noConfusion hh⟩

theorem rag_run_cases (env : RagEnv) :
    rag_run env = []
    ∨ ∃ docs scores, env.search 10 = Except.ok docs
        ∧ env.score docs = Except.ok scores ∧ docs ≠ []
        ∧ rag_run env
          = (((docs.zip scores).mergeSort descBySnd).take 3).map Prod.fst := by
  cases hco : env.clientOk with
  | error u => exact Or.inl (by simp [rag_run, hco])
  | ok u =>
    cases hembed : env.embed with
    | error u2 => exact Or.inl (by simp [rag_run, hco, hembed])
    | ok emb =>
      cases emb with
      | nil => exact Or.inl (by simp [rag_run, hco, hembed])
      | cons e0 et =>
        cases hsearch : env.search 10 with
        | error u3 => exact Or.inl (by simp [rag_run, hco, hembed, hsearch])
        | ok docs =>
          cases docs with
          | nil => exact Or.inl (by simp [rag_run, hco, hembed, hsearch])
          | cons d0 dt =>
            cases hscore : env.score (d0 :: dt) with
            | error u4 =>
              exact Or.inl (by simp [rag_run, hco, hembed, hsearch, hscore])
            | ok scores =>
              right
              exact ⟨d0 :: dt, scores, rfl, hscore, by simp,
                by simp [rag_run, hco, hembed, hsearch, hscore]⟩

theorem descBySnd_trans (a b c : String × ℚ) :
    descBySnd a b → descBySnd b c → descBySnd a c := by
  intro hab hbc
  simp only [descBySnd, decide_eq_true_eq] at hab hbc ⊢
  exact le_trans hbc hab

theorem descBySnd_total (a b : String × ℚ) : descBySnd a b || descBySnd b a := by
  simpa [descBySnd, Bool.or_eq_true, decide_eq_true_eq] using le_total b.2 a.2

/-- Claim C8: retrieval returns at most 3 documents; a failed client
construction, a failed or empty embedding, a failed or empty search,
or a failed rerank each yield the empty list instead of raising; and
in the successful case the result is the top 3 of the candidates
sorted descending by reranker score. -/
theorem claim_C8 (env : RagEnv) :
    (rag_run env).length ≤ 3
    ∧ (env.clientOk = Except.error () → rag_run env = [])
    ∧ (env.embed = Except.error () → rag_run env = [])
    ∧ (env.embed = Except.ok [] → rag_run env = [])
    ∧ (env.search 10 = Except.error () → rag_run env = [])
    ∧ (env.search 10 = Except.ok [] → rag_run env = [])
    ∧ (∀ docs, env.search 10 = Except.ok docs → env.score docs = Except.error () →
        rag_run env = [])
    ∧ (∀ emb docs scores, env.clientOk = Except.ok () → env.embed = Except.ok emb →
        emb ≠ [] → env.search 10 = Except.ok docs → docs ≠ [] →
        env.score docs = Except.ok scores →
        rag_run env
            = (((docs.zip scores).mergeSort descBySnd).take 3).map Prod.fst
          ∧ List.Sorted (fun a b : String × ℚ => b.2 ≤ a.2)
              (((docs.zip scores).mergeSort descBySnd).take 3)) := by
  refine ⟨?_, ?_, ?_, ?_, ?_, ?_, ?_, ?_⟩
  · rcases rag_run_cases env with h | ⟨docs, scores, _, _, _, h⟩
    · simp [h]
    · rw [h]
      calc ((((docs.zip scores).mergeSort descBySnd).take 3).map Prod.fst).length
          = (((docs.zip scores).mergeSort descBySnd).take 3).length :=
            List.length_map _ _
        _ ≤ 3 := by
            rw [List.length_take]
            exact min_le_left 3 _
  · intro h
    simp [rag_run, h]
  · intro h
    cases hco : env.clientOk with
    | error u => simp [rag_run, hco]
    | ok u => simp [rag_run, hco, h]
  · intro h
    cases hco : env.clientOk with
    | error u => simp [rag_run, hco]
    | ok u => simp [rag_run, hco, h]
  · intro h
    cases hco : env.clientOk with
    | error u => simp [rag_run, hco]
    | ok u =>
      cases hembed : env.embed with
      | error u2 => simp [rag_run, hco, hembed]
      | ok emb =>
        cases emb with
        | nil => simp [rag_run, hco, hembed]
        | cons e0 et => simp [rag_run, hco, hembed, h]
  · intro h
    cases hco : env.clientOk with
    | error u => simp [rag_run, hco]
    | ok u =>
      cases hembed : env.embed with
      | error u2 => simp [rag_run, hco, hembed]
      | ok emb =>
        cases emb with
        | nil => simp [rag_run, hco, hembed]
        | cons e0 et => simp [rag_run, hco, hembed, h]
  · intro docs hs hsc
    cases hco : env.clientOk with
    | error u => simp [rag_run, hco]
    | ok u =>
      cases hembed : env.embed with
      | error u2 => simp [rag_run, hco, hembed]
      | ok emb =>
        cases emb with
        | nil => simp [rag_run, hco, hembed]
        | cons e0 et =>
          cases docs with
          | nil => simp [rag_run, hco, hembed, hs]
          | cons d0 dt => simp [rag_run, hco, hembed, hs, hsc]
  · intro emb docs scores hco hembed hne hsearch hdne hscore
    have hsorted :
        List.Sorted (fun a b : String × ℚ => b.2 ≤ a.2)
          (((docs.zip scores).mergeSort descBySnd).take 3) := by
      have hp := @List.sorted_mergeSort (String × ℚ) descBySnd
        descBySnd_trans descBySnd_total (docs.zip scores)
      have htake := List.Pairwise.sublist
        (List.take_sublist 3 ((docs.zip scores).mergeSort descBySnd)) hp
      exact htake.imp (fun hab => of_decide_eq_true hab)
    refine ⟨?_, hsorted⟩
    cases emb with
    | nil => exact absurd rfl hne
    | cons e0 et =>
      cases docs with
      | nil => exact absurd rfl hdne
      | cons d0 dt => simp [rag_run, hco, hembed, hsearch, hscore]

/-- A concrete retrieval environment for the C8 witness. -/
def envW : RagEnv :=
  { clientOk := Except.ok (), embed := Except.ok [1],
    search := fun _ => Except.ok [("a"), ("b"), ("c"), ("d")],
    score := fun _ => Except.ok [1 / 2, 9 / 10, 1 / 10, 3 / 4] }

/-- Witness for C8: four candidates reranked to the top three. -/
theorem claim_C8_witness :
    rag_run envW = [("b"), ("d"), ("a")] ∧ (rag_run envW).length ≤ 3 := by
  have h := (claim_C8 envW).2.2.2.2.2.2.2 [1] [("a"), ("b"), ("c"), ("d")]
    [1 / 2, 9 / 10, 1 / 10, 3 / 4] rfl rfl (by simp) rfl (by simp) rfl
  refine ⟨?_, (claim_C8 envW).1⟩
  rw [h.1]
  with_unfolding_all rfl

/-- A recovered stage output that the merge and decision code can
digest without raising: when truthy it is a mapping whose confidence
(if any) converts under float() and whose command_id (if a list) holds
only strings. -/
def SafeParsed (v : PyVal) : Prop :=
  v.truthy = true →
    ∃ kvs, v = PyVal.dict kvs
      ∧ (∀ x, (("confidence"), x) ∈ kvs → ∃ q, pyFloat x = Except.ok q)
      ∧ (∀ xs, (("command_id"), PyVal.list xs) ∈ kvs →
          ∃ ss : List String, xs = List.map PyVal.str ss)

theorem SafeParsed_empty : SafeParsed (PyVal.dict []) := fun h => Bool.noConfusion h

theorem safe_conf (v : PyVal) (hs : SafeParsed v) (x : PyVal)
    (h : (("confidence"), x) ∈ asDict v) : ∃ q, pyFloat x = Except.ok q := by
  unfold asDict at h
  by_cases ht : v.truthy = true
  · rw [if_pos ht] at h
    obtain ⟨kvs, hv, hconf, _⟩ := hs ht
    subst hv
    exact hconf x h
  · rw [if_neg ht] at h
    cases h

theorem safe_cmd (v : PyVal) (hs : SafeParsed v) (xs : List PyVal)
    (h : (("command_id"), PyVal.list xs) ∈ asDict v) :
    ∃ ss : List String, xs = List.map PyVal.str ss := by
  unfold asDict at h
  by_cases ht : v.truthy = true
  · rw [if_pos ht] at h
    obtain ⟨kvs, hv, _, hcmd⟩ := hs ht
    subst hv
    exact hcmd xs h
  · rw [if_neg ht] at h
    cases h

/-- Claim C3 (amended): the caller receives a structured outcome both
when transient retries are exhausted and when the crew returns, as
long as every recovered stage output is digestible (SafeParsed); a
non-float-convertible confidence or a non-string command_id list
raises instead (see the counterexample), as do authentication and
other upstream errors. -/
theorem claim_C3 (a : Alert) (kick : ℕ → Except LLMError (List TaskOutput)) :
    (∀ e, (exponential_backoff_retry kick 3 1 10).result = Except.error e →
      e = LLMError.rateLimitError ∨ e = LLMError.apiError →
      ∃ resp, (process_alert a kick).outcome = Except.ok resp)
    ∧ (∀ tasks, (exponential_backoff_retry kick 3 1 10).result = Except.ok tasks →
        (∀ t ∈ tasks, SafeParsed (parse_possible_json t.raw)) →
        ∃ resp, (process_alert a kick).outcome = Except.ok resp) := by
  constructor
  · intro e hres he
    rw [process_alert_transient_eq a kick e hres he]
    exact ⟨_, rfl⟩
  · intro tasks hres hsafe
    obtain ⟨hc1, hc2⟩ := extract_outputs_cases tasks
    have hpa : SafeParsed (extract_outputs tasks).1 := by
      rcases hc1 with h | ⟨t, ht, h⟩
      · rw [h]; exact SafeParsed_empty
      · rw [h]; exact hsafe t ht
    have hpe : SafeParsed (extract_outputs tasks).2 := by
      rcases hc2 with h | ⟨t, ht, h⟩
      · rw [h]; exact SafeParsed_empty
      · rw [h]; exact hsafe t ht
    have hm := merge_resolution_safe (extract_outputs tasks).1 (extract_outputs tasks).2
      (fun ht => Exists.imp (fun kvs hk => hk.1) (hpa ht))
      (fun ht => Exists.imp (fun kvs hk => hk.1) (hpe ht))
    have hcmd : ∀ xs,
        dgetD (dupdate (dupdate resolution_defaults
            (asDict (extract_outputs tasks).1)) (asDict (extract_outputs tasks).2))
          ("command_id") PyVal.none = PyVal.list xs →
        ∃ ss : List String, xs = List.map PyVal.str ss := by
      intro xs hxs
      have hsome : dget? (dupdate (dupdate resolution_defaults
          (asDict (extract_outputs tasks).1)) (asDict (extract_outputs tasks).2))
          ("command_id") = some (PyVal.list xs) := by
        unfold dgetD at hxs
        cases hg : dget? (dupdate (dupdate resolution_defaults
            (asDict (extract_outputs tasks).1)) (asDict (extract_outputs tasks).2))
            ("command_id") with
        | none =>
          rw [hg] at hxs
          exact PyVal.noConfusion hxs
        | some y =>
          rw [hg] at hxs
          have hy : y = PyVal.list xs := hxs
          rw [hy]
      rcases dget?_dupdate_provenance _ _ _ _ hsome with h2 | h2
      · rcases dget?_dupdate_provenance _ _ _ _ h2 with h3 | h3
        · rw [dget?_defaults_command_id] at h3
          cases h3
        · exact safe_cmd _ hpa xs h3
      · exact safe_cmd _ hpe xs h2
    obtain ⟨r2, hr2⟩ := flatten_ok _ hcmd
    have hconf : ∃ c, pyFloat (dgetD r2 ("confidence") (PyVal.float (7 / 10)))
        = Except.ok c := by
      obtain ⟨x, hx, hcase⟩ := merged_lookup resolution_defaults
        (asDict (extract_outputs tasks).1) (asDict (extract_outputs tasks).2)
        ("confidence") (by rw [dget?_defaults_confidence]; rfl)
      have hx2 : dget? r2 ("confidence") = some x := by
        rw [flatten_preserves _ _ hr2 ("confidence") (by decide)]
        exact hx
      have hgd : dgetD r2 ("confidence") (PyVal.float (7 / 10)) = x := by
        unfold dgetD
        rw [hx2]
        rfl
      rw [hgd]
      rcases hcase with h | h | h
      · rw [dget?_defaults_confidence] at h
        injection h with h2
        exact ⟨7 / 10, by rw [← h2]; rfl⟩
      · exact safe_conf _ hpa x h
      · exact safe_conf _ hpe x h
    obtain ⟨c, hc⟩ := hconf
    obtain ⟨sr, hsr⟩ := final_decision_ok r2 c hc
    rw [process_alert_ok_eq a kick tasks r2 sr hres (hm.trans hr2) hsr]
    exact ⟨_, rfl⟩

/-- The analyzer task used by the C3 witness. -/
def taskW3 : TaskOutput :=
  { agent := ("Resolution Generator"),
    raw := PyVal.str ("\x7b\"confidence\": 0.9\x7d") }

/-- Witness for C3 on a well-formed analyzer output. -/
theorem claim_C3_witness :
    ∃ resp, (process_alert alertW (fun _ => Except.ok [taskW3])).outcome
      = Except.ok resp := by
  apply (claim_C3 alertW (fun _ => Except.ok [taskW3])).2 [taskW3] rfl
  intro t ht
  rw [List.mem_singleton.mp ht]
  intro _
  refine ⟨[(("confidence"), PyVal.float (9 / 10))], by with_unfolding_all rfl, ?_, ?_⟩
  · intro x hx
    simp only [List.mem_singleton, Prod.mk.injEq, true_and] at hx
    exact ⟨9 / 10, by rw [hx]; rfl⟩
  · intro xs hxs
    simp at hxs

/-- Counterexample to C3 as stated: an analyzer output whose recovered
confidence is the non-numeric string high makes float() raise, so the
run escapes with a ValueError instead of returning a structured
outcome. -/
theorem claim_C3_counterexample :
    (process_alert alertW
        (fun _ => Except.ok [{ agent := ("Resolution Generator"),
                               raw := PyVal.str ("\x7b\"confidence\": \"high\"\x7d") }])).outcome
      = Except.error (ProcError.py PyError.valueErr) := by
  with_unfolding_all rfl

/-- A recovered stage output that keeps the merged resolution well
typed: when truthy it is a mapping whose confidence (if present) is a
float in [0,1], whose executed (if present) is a boolean, and whose
command_id (if a list) holds only strings. -/
def GoodParsed (v : PyVal) : Prop :=
  v.truthy = true →
    ∃ kvs, v = PyVal.dict kvs
      ∧ (∀ x, (("confidence"), x) ∈ kvs →
          ∃ q, x = PyVal.float q ∧ 0 ≤ q ∧ q ≤ 1)
      ∧ (∀ x, (("executed"), x) ∈ kvs → ∃ b, x = PyVal.bool b)
      ∧ (∀ xs, (("command_id"), PyVal.list xs) ∈ kvs →
          ∃ ss : List String, xs = List.map PyVal.str ss)

theorem GoodParsed_empty : GoodParsed (PyVal.dict []) := fun h => Bool.noConfusion h

theorem good_conf (v : PyVal) (hs : GoodParsed v) (x : PyVal)
    (h : (("confidence"), x) ∈ asDict v) :
    ∃ q, x = PyVal.float q ∧ 0 ≤ q ∧ q ≤ 1 := by
  unfold asDict at h
  by_cases ht : v.truthy = true
  · rw [if_pos ht] at h
    obtain ⟨kvs, hv, hconf, _, _⟩ := hs ht
    subst hv
    exact hconf x h
  · rw [if_neg ht] at h
    cases h

theorem good_exec (v : PyVal) (hs : GoodParsed v) (x : PyVal)
    (h : (("executed"), x) ∈ asDict v) : ∃ b, x = PyVal.bool b := by
  unfold asDict at h
  by_cases ht : v.truthy = true
  · rw [if_pos ht] at h
    obtain ⟨kvs, hv, _, hexec, _⟩ := hs ht
    subst hv
    exact hexec x h
  · rw [if_neg ht] at h
    cases h

theorem good_cmd (v : PyVal) (hs : GoodParsed v) (xs : List PyVal)
    (h : (("command_id"), PyVal.list xs) ∈ asDict v) :
    ∃ ss : List String, xs = List.map PyVal.str ss := by
  unfold asDict at h
  by_cases ht : v.truthy = true
  · rw [if_pos ht] at h
    obtain ⟨kvs, hv, _, _, hcmd⟩ := hs ht
    subst hv
    exact hcmd xs h
  · rw [if_neg ht] at h
    cases h

/-- Claim C9 (amended): for a validated alert and recovered stage
outputs that are mappings with a float confidence in [0,1], a boolean
executed, and (when a list) a string-list command_id, the pipeline
returns a Resolution whose confidence lies in [0,1] and whose executed
is a boolean; without those bounds on the stage outputs, an
out-of-range confidence flows through unchanged (see the
counterexample). -/
theorem claim_C9 (a : Alert) (kick : ℕ → Except LLMError (List TaskOutput))
    (tasks : List TaskOutput)
    (_hvalid : validAlert a = true)
    (hres : (exponential_backoff_retry kick 3 1 10).result = Except.ok tasks)
    (hgood : ∀ t ∈ tasks, GoodParsed (parse_possible_json t.raw)) :
    ∃ st rr, (process_alert a kick).outcome
        = Except.ok { status := st, resolution := rr }
      ∧ (∃ q, dget? rr ("confidence") = some (PyVal.float q) ∧ 0 ≤ q ∧ q ≤ 1)
      ∧ (∃ b, dget? rr ("executed") = some (PyVal.bool b)) := by
  obtain ⟨hc1, hc2⟩ := extract_outputs_cases tasks
  have hpa : GoodParsed (extract_outputs tasks).1 := by
    rcases hc1 with h | ⟨t, ht, h⟩
    · rw [h]; exact GoodParsed_empty
    · rw [h]; exact hgood t ht
  have hpe : GoodParsed (extract_outputs tasks).2 := by
    rcases hc2 with h | ⟨t, ht, h⟩
    · rw [h]; exact GoodParsed_empty
    · rw [h]; exact hgood t ht
  have hm := merge_resolution_safe (extract_outputs tasks).1 (extract_outputs tasks).2
    (fun ht => Exists.imp (fun kvs hk => hk.1) (hpa ht))
    (fun ht => Exists.imp (fun kvs hk => hk.1) (hpe ht))
  have hcmd : ∀ xs,
      dgetD (dupdate (dupdate resolution_defaults
          (asDict (extract_outputs tasks).1)) (asDict (extract_outputs tasks).2))
        ("command_id") PyVal.none = PyVal.list xs →
      ∃ ss : List String, xs = List.map PyVal.str ss := by
    intro xs hxs
    have hsome : dget? (dupdate (dupdate resolution_defaults
        (asDict (extract_outputs tasks).1)) (asDict (extract_outputs tasks).2))
        ("command_id") = some (PyVal.list xs) := by
      unfold dgetD at hxs
      cases hg : dget? (dupdate (dupdate resolution_defaults
          (asDict (extract_outputs tasks).1)) (asDict (extract_outputs tasks).2))
          ("command_id") with
      | none =>
        rw [hg] at hxs
        exact PyVal.noConfusion hxs
      | some y =>
        rw [hg] at hxs
        have hy : y = PyVal.list xs := hxs
        rw [hy]
    rcases dget?_dupdate_provenance _ _ _ _ hsome with h2 | h2
    · rcases dget?_dupdate_provenance _ _ _ _ h2 with h3 | h3
      · rw [dget?_defaults_command_id] at h3
        cases h3
      · exact good_cmd _ hpa xs h3
    · exact good_cmd _ hpe xs h2
  obtain ⟨r2, hr2⟩ := flatten_ok _ hcmd
  have hconf : ∃ q, dget? r2 ("confidence") = some (PyVal.float q)
      ∧ 0 ≤ q ∧ q ≤ 1 := by
    obtain ⟨x, hx, hcase⟩ := merged_lookup resolution_defaults
      (asDict (extract_outputs tasks).1) (asDict (extract_outputs tasks).2)
      ("confidence") (by rw [dget?_defaults_confidence]; rfl)
    have hx2 : dget? r2 ("confidence") = some x := by
      rw [flatten_preserves _ _ hr2 ("confidence") (by decide)]
      exact hx
    rcases hcase with h | h | h
    · rw [dget?_defaults_confidence] at h
      injection h with h2
      exact ⟨7 / 10, by rw [hx2, ← h2], by norm_num, by norm_num⟩
    · obtain ⟨q, hq, hq0, hq1⟩ := good_conf _ hpa x h
      exact ⟨q, by rw [hx2, hq], hq0, hq1⟩
    · obtain ⟨q, hq, hq0, hq1⟩ := good_conf _ hpe x h
      exact ⟨q, by rw [hx2, hq], hq0, hq1⟩
  have hexec : ∃ b, dget? r2 ("executed") = some (PyVal.bool b) := by
    obtain ⟨x, hx, hcase⟩ := merged_lookup resolution_defaults
      (asDict (extract_outputs tasks).1) (asDict (extract_outputs tasks).2)
      ("executed") (by rw [dget?_defaults_executed]; rfl)
    have hx2 : dget? r2 ("executed") = some x := by
      rw [flatten_preserves _ _ hr2 ("executed") (by decide)]
      exact hx
    rcases hcase with h | h | h
    · rw [dget?_defaults_executed] at h
      injection h with h2
      exact ⟨false, by rw [hx2, ← h2]⟩
    · obtain ⟨b, hb⟩ := good_exec _ hpa x h
      exact ⟨b, by rw [hx2, hb]⟩
    · obtain ⟨b, hb⟩ := good_exec _ hpe x h
      exact ⟨b, by rw [hx2, hb]⟩
  obtain ⟨q, hq, hq0, hq1⟩ := hconf
  obtain ⟨b, hb⟩ := hexec
  have hgdc : dgetD r2 ("confidence") (PyVal.float (7 / 10)) = PyVal.float q := by
    unfold dgetD
    rw [hq]
    rfl
  have hgde : dgetD r2 ("executed") PyVal.none = PyVal.bool b := by
    unfold dgetD
    rw [hb]
    rfl
  have hc : pyFloat (dgetD r2 ("confidence") (PyVal.float (7 / 10)))
      = Except.ok q := by
    rw [hgdc]
    rfl
  cases b with
  | true =>
    have hsr := final_decision_executed r2 q hc (by rw [hgde])
    rw [process_alert_ok_eq a kick tasks r2
      (("resolved"), dset r2 ("confidence") (PyVal.float (max q (19 / 20))))
      hres (hm.trans hr2) hsr]
    refine ⟨("resolved"), dset r2 ("confidence") (PyVal.float (max q (19 / 20))),
      rfl, ⟨max q (19 / 20), dget?_dset_same r2 _ _, ?_, ?_⟩, true, ?_⟩
    · exact le_trans hq0 (le_max_left q (19 / 20))
    · exact max_le hq1 (by norm_num)
    · rw [dget?_dset_ne r2 _ _ _ (by decide)]
      exact hb
  | false =>
    have hne : dgetD r2 ("executed") PyVal.none ≠ PyVal.bool true := by
      rw [hgde]
      intro hh
      injection hh with hbb
      exact Bool.noConfusion hbb
    have hsr := final_decision_not_executed r2 q hc hne
    by_cases hlt : q < 4 / 5
    · rw [if_pos hlt] at hsr
      rw [process_alert_ok_eq a kick tasks r2 (("pending_human"), r2)
        hres (hm.trans hr2) hsr]
      exact ⟨("pending_human"), r2, rfl, ⟨q, hq, hq0, hq1⟩, false, hb⟩
    · rw [if_neg hlt] at hsr
      rw [process_alert_ok_eq a kick tasks r2 (("resolved"), r2)
        hres (hm.trans hr2) hsr]
      exact ⟨("resolved"), r2, rfl, ⟨q, hq, hq0, hq1⟩, false, hb⟩

/-- The analyzer task used by the C9 witness. -/
def taskW9 : TaskOutput :=
  { agent := ("Resolution Generator"),
    raw := PyVal.str ("\x7b\"confidence\": 0.85, \"executed\": false\x7d") }

/-- Witness for C9 on a well-typed analyzer output with confidence
0.85 and executed false. -/
theorem claim_C9_witness :
    ∃ st rr, (process_alert alertW (fun _ => Except.ok [taskW9])).outcome
        = Except.ok { status := st, resolution := rr }
      ∧ (∃ q, dget? rr ("confidence") = some (PyVal.float q) ∧ 0 ≤ q ∧ q ≤ 1)
      ∧ (∃ b, dget? rr ("executed") = some (PyVal.bool b)) := by
  apply claim_C9 alertW (fun _ => Except.ok [taskW9]) [taskW9] (by decide) rfl
  intro t ht
  rw [List.mem_singleton.mp ht]
  intro _
  refine ⟨[(("confidence"), PyVal.float (17 / 20)), (("executed"), PyVal.bool false)],
    by with_unfolding_all rfl, ?_, ?_, ?_⟩
  · intro x hx
    rcases List.mem_cons.mp hx with hx | hx
    · exact ⟨17 / 20, congrArg Prod.snd hx, by norm_num, by norm_num⟩
    · rcases List.mem_cons.mp hx with hx | hx
      · have hne1 : ¬ (("confidence") : String) = ("executed") := by decide
        exact absurd (congrArg Prod.fst hx) hne1
      · cases hx
  · intro x hx
    rcases List.mem_cons.mp hx with hx | hx
    · have hne2 : ¬ (("executed") : String) = ("confidence") := by decide
      exact absurd (congrArg Prod.fst hx) hne2
    · rcases List.mem_cons.mp hx with hx | hx
      · exact ⟨false, congrArg Prod.snd hx⟩
      · cases hx
  · intro xs hxs
    rcases List.mem_cons.mp hxs with hxs | hxs
    · have hne3 : ¬ (("command_id") : String) = ("confidence") := by decide
      exact absurd (congrArg Prod.fst hxs) hne3
    · rcases List.mem_cons.mp hxs with hxs | hxs
      · have hne4 : ¬ (("command_id") : String) = ("executed") := by decide
        exact absurd (congrArg Prod.fst hxs) hne4
      · cases hxs

/-- Counterexample to C9 as stated: an analyzer-reported confidence of
1.5 flows through the merge and the threshold rule unchanged, so the
returned Resolution carries confidence 1.5, outside [0,1]. -/
theorem claim_C9_counterexample :
    (process_alert alertW
        (fun _ => Except.ok [{ agent := ("Resolution Generator"),
                               raw := PyVal.str ("\x7b\"confidence\": 1.5\x7d") }])).outcome
      = Except.ok
          { status := ("resolved"),
            resolution :=
              [(("issue"), PyVal.str ("Unknown")),
               (("root_cause"), PyVal.str ("Unknown")),
               (("impact"), PyVal.str ("Unknown")),
               (("resolution"), PyVal.str ("Manual investigation required")),
               (("confidence"), PyVal.float (3 / 2)),
               (("executed"), PyVal.bool false)] }
    ∧ ¬ ((3 : ℚ) / 2 ≤ 1) :=
  ⟨by with_unfolding_all rfl, by norm_num⟩
